import Mathlib

/-
Verification of the sign package (Ed25519 key management, password-based
private-key encryption, chunked file checksumming, signature codec) of the
go-lib repository, against its natural-language specification.

Bytes are modelled as List Nat (each entry one byte); machine byte values
interact only through XOR / OR, which are well-defined on Nat.  The external
cryptographic primitives (SHA-256, SHA-512, scrypt, Ed25519, base64 from the
Go standard library and golang.org/x/crypto) are trusted building blocks per
the spec; they are abstracted as a structure of functions together with the
contracts the code relies on (output lengths, Ed25519 sign/verify soundness,
base64 round-trip).  A small executable instance of that structure is
provided so every statement can be exercised on concrete inputs.
-/

set_option maxHeartbeats 1000000

namespace Sign

/-- Error taxonomy of the spec section 7: IOError, FormatError,
AuthenticationError, RangeError. -/
inductive GoErr where
  | ioError
  | formatError
  | authenticationError
  | rangeError
deriving DecidableEq

/-- Trusted external primitives used by sign.go, with the contracts the code
relies on: scrypt returns exactly the requested number of key bytes; an
Ed25519 signature made with the private half of a generated key verifies
under the public half; a generated public key is 32 bytes and equals the
last 32 bytes of the 64-byte private key; base64 decode inverts encode and
decoding the empty string yields empty bytes (as in Go encoding/base64). -/
structure Prims where
  sha512 : List Nat → List Nat
  sha256 : List Nat → List Nat
  scrypt : List Nat → List Nat → Nat → Nat → Nat → Nat → List Nat
  edSeedKey : List Nat → List Nat × List Nat
  edSign : List Nat → List Nat → List Nat
  edVerify : List Nat → List Nat → List Nat → Bool
  b64enc : List Nat → List Nat
  b64dec : List Nat → Option (List Nat)
  h_scrypt_len : ∀ pw salt n r p dk, (scrypt pw salt n r p dk).length = dk
  h_ed_correct : ∀ e m, edVerify (edSeedKey e).2 m (edSign (edSeedKey e).1 m) = true
  h_ed_pub_len : ∀ e, (edSeedKey e).2.length = 32
  h_ed_tail : ∀ e, (edSeedKey e).1.drop 32 = (edSeedKey e).2
  h_b64 : ∀ b, b64dec (b64enc b) = some b
  h_b64_nil : b64dec [] = some []

/-- Private Ed25519 key (sign.go lines 44-50): secret bytes Sk plus a cached
copy of the public key; per the source comment the cache is in reality a
pointer to Sk[32:]. -/
structure PrivateKey where
  Sk : List Nat
  pk : List Nat
deriving DecidableEq

/-- Public Ed25519 key (sign.go lines 54-56). -/
structure PublicKey where
  Pk : List Nat
deriving DecidableEq

/-- Ed25519 key pair (sign.go lines 60-63). -/
structure Keypair where
  Sec : PrivateKey
  Pub : PublicKey
deriving DecidableEq

/-- An Ed25519 signature (sign.go lines 67-70): signature bytes plus the
first 16 bytes of the SHA-256 hash of the signing public key. -/
structure Signature where
  Sig : List Nat
  Pkhash : List Nat
deriving DecidableEq

/-- Algorithm label for the encrypted private key (sign.go line 74). -/
def sk_algo : String := "scrypt-sha256"

/-- Scrypt CPU cost parameter (sign.go line 78). -/
def _N : Nat := 1 <<< 17

/-- Scrypt block-size parameter (sign.go line 79). -/
def _r : Nat := 16

/-- Scrypt parallelism parameter (sign.go line 80). -/
def _p : Nat := 1

/-- Encrypted private key (sign.go lines 83-102). -/
structure encPrivKey where
  Esk : List Nat
  Salt : List Nat
  Algo : String
  Verify : List Nat
  N : Nat
  r : Nat
  p : Nat
deriving DecidableEq

/-- Serialized representation of the private key (sign.go lines 106-115).
The YAML layer is modelled as the identity on this record; binary fields
hold base64 text bytes.  A field absent from the YAML input is the empty
value, exactly as yaml.Unmarshal leaves a missing field zero-valued. -/
structure serializedPrivKey where
  Comment : String
  Esk : List Nat
  Salt : List Nat
  Algo : String
  Verify : List Nat
  N : Nat
  R : Nat
  P : Nat
deriving DecidableEq

/-- Serialized signature record (sign.go lines 126-130); the YAML layer is
the identity on this record, missing fields are empty. -/
structure signature where
  Comment : String
  Pkhash : List Nat
  Signature : List Nat
deriving DecidableEq

/-- Model of Go crypto/subtle.ConstantTimeCompare on byte slices: 0 when the
lengths differ, otherwise 1 exactly when OR-ing the XOR of all byte pairs
gives zero. -/
def constantTimeCompare (x y : List Nat) : Nat :=
  if x.length ≠ y.length then 0
  else if (List.zipWith (fun a b => a ^^^ b) x y).foldl (fun a b => a ||| b) 0 = 0 then 1
  else 0

/-- NewKeypair (sign.go lines 136-152): the entropy consumed from the system
random source is the explicit argument; Ed.GenerateKey turns it into the
(private, public) pair, and the private key caches the public bytes. -/
def NewKeypair (C : Prims) (entropy : List Nat) : Keypair :=
  let pr := C.edSeedKey entropy
  { Sec := { Sk := pr.1, pk := pr.2 }, Pub := { Pk := pr.2 } }

/-- PrivateKey.serialize, record-production part (sign.go lines 234-279):
expand the password with SHA-512, derive an scrypt keystream of length
len(Sk) from it and the fresh random salt (the salt drawn from the random
source is the explicit argument), store SHA-256(salt || keystream) as the
verification tag, and XOR the secret with the keystream.  The final YAML
marshal and file write are outside the record model. -/
def PrivateKey.serialize (C : Prims) (sk : PrivateKey) (comment : String)
    (pw : List Nat) (salt : List Nat) : serializedPrivKey :=
  let pwb := C.sha512 pw
  let xork := C.scrypt pwb salt _N _r _p sk.Sk.length
  let verify := C.sha256 (salt ++ xork)
  let eskBytes := List.zipWith (fun a b => a ^^^ b) sk.Sk xork
  let esk : encPrivKey :=
    { Esk := eskBytes, Salt := salt, Algo := sk_algo, Verify := verify,
      N := _N, r := _r, p := _p }
  { Comment := comment, Esk := C.b64enc esk.Esk, Salt := C.b64enc esk.Salt,
    Algo := esk.Algo, Verify := C.b64enc esk.Verify,
    N := esk.N, R := esk.r, P := esk.p }

/-- ReadPrivateKey (sign.go lines 181-226), from the parsed YAML record:
base64-decode the binary fields (FormatError on bad base64), re-expand the
password, re-derive the keystream with the stored salt and cost parameters,
recompute SHA-256(salt || keystream) and compare with the stored tag via
constantTimeCompare; on mismatch fail with AuthenticationError without
decrypting, on match return the XOR-decrypted secret.  The code constructs
the result as an empty PrivateKey and never assigns the cached pk field, so
the returned pk is empty. -/
def ReadPrivateKey (C : Prims) (ssk : serializedPrivKey) (pw : List Nat) :
    Except GoErr PrivateKey :=
  match C.b64dec ssk.Esk with
  | none => .error .formatError
  | some eskB =>
    match C.b64dec ssk.Salt with
    | none => .error .formatError
    | some saltB =>
      match C.b64dec ssk.Verify with
      | none => .error .formatError
      | some verifyB =>
        let esk : encPrivKey :=
          { Esk := eskB, Salt := saltB, Algo := ssk.Algo, Verify := verifyB,
            N := ssk.N, r := ssk.R, p := ssk.P }
        let pwb := C.sha512 pw
        let xork := C.scrypt pwb esk.Salt esk.N esk.r esk.p esk.Esk.length
        let ck := C.sha256 (esk.Salt ++ xork)
        if constantTimeCompare esk.Verify ck ≠ 1 then .error .authenticationError
        else .ok { Sk := List.zipWith (fun a b => a ^^^ b) esk.Esk xork, pk := [] }

/-- PrivateKey.SignMessage (sign.go lines 292-303): sign the prehashed
message with the Ed25519 private key; the key hint is the first 16 bytes of
the SHA-256 hash of the cached public key bytes. -/
def SignMessage (C : Prims) (sk : PrivateKey) (ck : List Nat) : Signature :=
  { Sig := C.edSign sk.Sk ck, Pkhash := (C.sha256 sk.pk).take 16 }

/-- Ed.Verify of golang.org/x/crypto/ed25519 as called by VerifyMessage: it
panics when the public key is not exactly 32 bytes (modelled as none); any
other mismatch, including a malformed signature, is a normal false from the
primitive. -/
def edVerifyGo (C : Prims) (pk msg sig : List Nat) : Option Bool :=
  if pk.length = 32 then some (C.edVerify pk msg sig) else none

/-- PublicKey.VerifyMessage (sign.go lines 453-457): returns
Ed.Verify(pk, ck, sig.Sig) paired with a nil error; the error component of
the Go return value is the literal nil on every path.  none models the
panic inside Ed.Verify on a wrong-length public key. -/
def VerifyMessage (C : Prims) (pk : PublicKey) (ck : List Nat) (sig : Signature) :
    Option (Bool × Option GoErr) :=
  (edVerifyGo C pk.Pk ck sig.Sig).map (fun b => (b, none))

/-- Window constant of the chunked checksum loop (sign.go line 547):
1 * 1024 * 1024 * 1024 bytes. -/
def chunkSize : Nat := 1 * 1024 * 1024 * 1024

/-- The window loop of fileCksum (sign.go lines 549-568): while bytes
remain, take min(window, remaining) bytes at the current offset, feed them
to the streaming hash (modelled as appending to the absorbed-byte list acc),
and advance.  off and sz walk the file exactly as in the source. -/
def cksumLoop (file : List Nat) (off sz : Nat) (acc : List Nat) : List Nat :=
  if _h : sz = 0 then acc
  else
    let n := if chunkSize < sz then chunkSize else sz
    cksumLoop file (off + n) (sz - n) (acc ++ (file.drop off).take n)
termination_by sz
decreasing_by
  have hc : 0 < chunkSize := by norm_num [chunkSize]
  split <;> omega

/-- fileCksum (sign.go lines 536-573): digest the whole file through the
window loop starting at offset 0 with the full size, then finalize the
streaming hash (the hash handed in by SignFile/VerifyFile is sha512.New()). -/
def fileCksum (C : Prims) (file : List Nat) : List Nat :=
  C.sha512 (cksumLoop file 0 file.length [])

/-- PrivateKey.SignFile (sign.go lines 312-318): SHA-512 checksum of the
file contents, then SignMessage. -/
def SignFile (C : Prims) (sk : PrivateKey) (file : List Nat) : Signature :=
  SignMessage C sk (fileCksum C file)

/-- PublicKey.VerifyFile (sign.go lines 442-448): recompute the SHA-512 file
checksum and delegate to VerifyMessage. -/
def VerifyFile (C : Prims) (pk : PublicKey) (file : List Nat) (sig : Signature) :
    Option (Bool × Option GoErr) :=
  VerifyMessage C pk (fileCksum C file) sig

/-- MakeSignature (sign.go lines 336-354), from the parsed YAML record:
base64-decode the signature field, then the pkhash field, failing with
FormatError on invalid base64; a field missing from the YAML is the empty
string, which decodes to empty bytes without error. -/
def MakeSignature (C : Prims) (ss : signature) : Except GoErr Signature :=
  match C.b64dec ss.Signature with
  | none => .error .formatError
  | some s =>
    match C.b64dec ss.Pkhash with
    | none => .error .formatError
    | some p => .ok { Sig := s, Pkhash := p }

/-- Signature.Serialize (sign.go lines 359-371): base64-encode the signature
and key-hint into the serialized record together with the comment; the YAML
marshal is the identity on the record model. -/
def Signature.Serialize (C : Prims) (sig : Signature) (comment : String) : signature :=
  { Comment := comment, Pkhash := C.b64enc sig.Pkhash, Signature := C.b64enc sig.Sig }

/-- Signature.IsPKMatch (sign.go lines 385-388): constant-time comparison of
the first 16 bytes of SHA-256(pk) against the stored key hint. -/
def IsPKMatch (C : Prims) (sig : Signature) (pk : PublicKey) : Bool :=
  constantTimeCompare ((C.sha256 pk.Pk).take 16) sig.Pkhash = 1

/-- The window loop of util.MmapReader (mmap.go lines 43-61): like the
fileCksum loop, but each window is an mmap of n bytes at the current offset;
a window that does not lie inside the file cannot be backed by file bytes
and is modelled as an I/O failure of the mmap call. -/
def mmapWindows (file : List Nat) (off sz : Nat) (acc : List Nat) :
    Except GoErr (List Nat) :=
  if _h : sz = 0 then .ok acc
  else
    let n := if chunkSize < sz then chunkSize else sz
    if file.length < off + n then .error .ioError
    else mmapWindows file (off + n) (sz - n) (acc ++ (file.drop off).take n)
termination_by sz
decreasing_by
  have hc : 0 < chunkSize := by norm_num [chunkSize]
  split <;> omega

/-- util.MmapReader (mmap.go lines 29-64): when the requested size is zero
the stat size of the whole file is substituted; then the call fails with
RangeError when the offset is at or beyond that effective size, and
otherwise streams the windows to the writer (the returned list is the
concatenation of all bytes written). -/
def MmapReader (file : List Nat) (off sz : Nat) : Except GoErr (List Nat) :=
  let sz2 := if sz = 0 then file.length else sz
  if sz2 ≤ off then .error .rangeError
  else mmapWindows file off sz2 []

/-- File-system state for the atomic-write model: an association list from
path to file contents. -/
def FS : Type := List (String × List Nat)

/-- Lookup of a path in the modelled file system. -/
def fsGet (fs : FS) (p : String) : Option (List Nat) :=
  match fs with
  | [] => none
  | e :: t => if e.1 = p then some e.2 else fsGet t p

/-- Removal of a path from the modelled file system. -/
def fsDel (fs : FS) (p : String) : FS :=
  match fs with
  | [] => []
  | e :: t => if e.1 = p then fsDel t p else e :: fsDel t p

/-- Creation or replacement of a path in the modelled file system. -/
def fsSet (fs : FS) (p : String) (b : List Nat) : FS :=
  (p, b) :: fsDel fs p

/-- unlink (sign.go lines 492-505): best-effort removal of a file. -/
def unlink (fs : FS) (f : String) : FS :=
  fsDel fs f

/-- writeFile (sign.go lines 511-528): remove a stale temporary sibling,
create and write the temporary file, then rename it onto the target.  The
three Bool arguments inject a failure of the create, write and rename steps
respectively (the operating system outcomes).  Create and write failures
return an IOError; the result of os.Rename is discarded by the source, so a
rename failure still returns success with the temporary file left behind
and the target untouched. -/
def writeFile (fs : FS) (fn : String) (b : List Nat)
    (fCreate fWrite fRename : Bool) : Except GoErr Unit × FS :=
  let tmp := fn ++ ".tmp"
  let fs1 := unlink fs tmp
  if fCreate then (.error .ioError, fs1)
  else
    let fs2 := fsSet fs1 tmp []
    if fWrite then (.error .ioError, fs2)
    else
      let fs3 := fsSet fs2 tmp b
      if fRename then (.ok (), fs3)
      else (.ok (), fsSet (fsDel fs3 tmp) fn b)

/-
Concrete executable instance of the trusted primitives.  These toy functions
satisfy exactly the contracts recorded in Prims; they exist so that every
universally quantified statement below can be exercised on concrete inputs.
-/

/-- Toy key generation, seed normalization: pad or cut the entropy to 32
bytes. -/
def seed32 (e : List Nat) : List Nat :=
  (e ++ List.replicate 32 0).take 32

/-- Toy public-key derivation from a 32-byte seed. -/
def pubOf (s : List Nat) : List Nat :=
  s.map (fun v => (v + 1) % 256)

/-- Toy injective byte-to-text encoding standing in for base64: two text
bytes (both at least 65) per input byte. -/
def b64encC : List Nat → List Nat
  | [] => []
  | v :: t => (v / 16 + 65) :: (v % 16 + 65) :: b64encC t

/-- Decoder for b64encC; none on odd length or on a text byte below 65,
mirroring how base64 decoding rejects malformed text. -/
def b64decC : List Nat → Option (List Nat)
  | [] => some []
  | [_] => none
  | c1 :: c2 :: t =>
    if c1 < 65 ∨ c2 < 65 then none
    else
      match b64decC t with
      | none => none
      | some r => some (((c1 - 65) * 16 + (c2 - 65)) :: r)

theorem seed32_length (e : List Nat) : (seed32 e).length = 32 := by
  simp [seed32]

theorem b64C_roundtrip (b : List Nat) : b64decC (b64encC b) = some b := by
  induction b with
  | nil => rfl
  | cons v t ih =>
    have h1 : ¬ (v / 16 + 65 < 65 ∨ v % 16 + 65 < 65) := by omega
    have h2 : (v / 16 + 65 - 65) * 16 + (v % 16 + 65 - 65) = v := by omega
    simp [b64encC, b64decC, h1, ih, h2]
    omega

theorem edVerifyC_correct (e m : List Nat) :
    (((((seed32 e ++ pubOf (seed32 e)) ++ m).take 32).map (fun v => (v + 1) % 256)
        == pubOf (seed32 e))
      && ((((seed32 e ++ pubOf (seed32 e)) ++ m).drop 32).take 32 == pubOf (seed32 e))
      && (((seed32 e ++ pubOf (seed32 e)) ++ m).drop 64 == m)) = true := by
  have hs := seed32_length e
  have hp : (pubOf (seed32 e)).length = 32 := by simp [pubOf, hs]
  have h64 : (seed32 e ++ pubOf (seed32 e)).length = 64 := by simp [hs, hp]
  rw [show (64 : Nat) = (seed32 e ++ pubOf (seed32 e)).length from h64.symm]
  rw [List.drop_left, List.append_assoc]
  rw [List.take_left' hs, List.drop_left' hs, List.take_left' hp]
  simp [pubOf]

/-- Executable instance of the trusted primitives, witnessing that the
contracts in Prims are satisfiable. -/
def P0 : Prims where
  sha512 := fun b => 2 :: b
  sha256 := fun b => 3 :: b
  scrypt := fun pw salt _ _ _ dk =>
    (List.range dk).map (fun i => (i + 5 * pw.sum + 7 * salt.sum) % 256)
  edSeedKey := fun e => (seed32 e ++ pubOf (seed32 e), pubOf (seed32 e))
  edSign := fun sk m => sk ++ m
  edVerify := fun pk m g =>
    ((g.take 32).map (fun v => (v + 1) % 256) == pk)
      && (((g.drop 32).take 32) == pk) && (g.drop 64 == m)
  b64enc := b64encC
  b64dec := b64decC
  h_scrypt_len := by
    intro pw salt n r p dk
    simp
  h_ed_correct := fun e m => edVerifyC_correct e m
  h_ed_pub_len := by
    intro e
    simp [pubOf, seed32_length]
  h_ed_tail := fun e => List.drop_left' (seed32_length e)
  h_b64 := b64C_roundtrip
  h_b64_nil := rfl

/-
Helper lemmas shared by the claim theorems.
-/

theorem zipWith_xor_cancel (a : List Nat) :
    ∀ k : List Nat, a.length ≤ k.length →
      List.zipWith (fun x y => x ^^^ y) (List.zipWith (fun x y => x ^^^ y) a k) k = a := by
  induction a with
  | nil =>
    intro k _
    simp
  | cons x t ih =>
    intro k h
    cases k with
    | nil => simp at h
    | cons y u =>
      simp only [List.zipWith_cons_cons]
      have hx : (x ^^^ y) ^^^ y = x := by
        rw [Nat.xor_assoc, Nat.xor_self, Nat.xor_zero]
      rw [hx, ih u (by simpa using h)]

theorem constantTimeCompare_self (x : List Nat) : constantTimeCompare x x = 1 := by
  have hz : ∀ n : Nat, (List.replicate n (0 : Nat)).foldl (fun a b => a ||| b) 0 = 0 := by
    intro n
    induction n with
    | zero => rfl
    | succ k ih => simpa [List.replicate_succ] using ih
  simp [constantTimeCompare, hz]

/-- C1: decrypting the encrypted private-key record produced by encrypting a
non-empty secret sk under any password pw (the empty password included),
with the same pw, succeeds and restores exactly the original secret bytes:
the keystream derived from the stored salt and cost parameters XORed with
the ciphertext undoes the encryption XOR. -/
theorem encrypt_decrypt_roundtrip (C : Prims) (sk : PrivateKey) (comment : String)
    (pw salt : List Nat) (_h : 0 < sk.Sk.length) :
    ∃ k, ReadPrivateKey C (PrivateKey.serialize C sk comment pw salt) pw = .ok k
      ∧ k.Sk = sk.Sk := by
  have hxl : (C.scrypt (C.sha512 pw) salt _N _r _p sk.Sk.length).length = sk.Sk.length :=
    C.h_scrypt_len _ _ _ _ _ _
  have hesk : (List.zipWith (fun x y => x ^^^ y) sk.Sk
      (C.scrypt (C.sha512 pw) salt _N _r _p sk.Sk.length)).length = sk.Sk.length := by
    simp [hxl]
  refine ⟨⟨sk.Sk, []⟩, ?_, rfl⟩
  unfold PrivateKey.serialize ReadPrivateKey
  simp only [C.h_b64, hesk, constantTimeCompare_self, ne_eq]
  simp only [reduceCtorEq, not_true_eq_false, if_false, ite_false, if_neg,
    not_false_eq_true]
  rw [zipWith_xor_cancel sk.Sk _ hxl.ge]

/-- C2: for a keypair freshly generated from any entropy and any digest d,
verifying d under the public key against the signature produced by signing
d with the private key returns true with a nil error. -/
theorem sign_verify_roundtrip (C : Prims) (entropy d : List Nat) :
    VerifyMessage C (NewKeypair C entropy).Pub d
      (SignMessage C (NewKeypair C entropy).Sec d) = some (true, none) := by
  unfold VerifyMessage edVerifyGo SignMessage NewKeypair
  simp [C.h_ed_pub_len, C.h_ed_correct]

/-- C3: on any serialized private-key record whose fields decode but whose
recomputed verification tag (SHA-256 of salt || keystream, the keystream
derived from the offered password and the stored salt and cost parameters)
differs from the stored tag under the constant-time comparison, decryption
fails with AuthenticationError; the failing branch is taken before any XOR
of the ciphertext. -/
theorem wrong_password_fails (C : Prims) (ssk : serializedPrivKey) (pw : List Nat)
    (eskB saltB verifyB : List Nat)
    (he : C.b64dec ssk.Esk = some eskB) (hs : C.b64dec ssk.Salt = some saltB)
    (hv : C.b64dec ssk.Verify = some verifyB)
    (hmix : constantTimeCompare verifyB
        (C.sha256 (saltB ++ C.scrypt (C.sha512 pw) saltB ssk.N ssk.R ssk.P eskB.length))
          ≠ 1) :
    ReadPrivateKey C ssk pw = .error .authenticationError := by
  unfold ReadPrivateKey
  rw [he, hs, hv]
  simp [hmix]

/-- Witness for C1 at a concrete secret, password and salt under the
executable primitives. -/
theorem encrypt_decrypt_roundtrip_witness :
    0 < ([1, 2, 3] : List Nat).length ∧
      ∃ k, ReadPrivateKey P0
          (PrivateKey.serialize P0 ⟨[1, 2, 3], []⟩ "" [97, 98, 99] (List.replicate 32 0))
          [97, 98, 99] = .ok k ∧ k.Sk = [1, 2, 3] :=
  ⟨by decide,
    encrypt_decrypt_roundtrip P0 ⟨[1, 2, 3], []⟩ "" [97, 98, 99]
      (List.replicate 32 0) (by decide)⟩

/-- Witness for C3: the record encrypted under the password abc, offered the
password xyz, is rejected with AuthenticationError. -/
theorem wrong_password_fails_witness :
    ReadPrivateKey P0
      (PrivateKey.serialize P0 ⟨[1, 2, 3, 4], []⟩ "" [97, 98, 99] (List.replicate 32 0))
      [120, 121, 122] = .error .authenticationError :=
  wrong_password_fails P0
    (PrivateKey.serialize P0 ⟨[1, 2, 3, 4], []⟩ "" [97, 98, 99] (List.replicate 32 0))
    [120, 121, 122] [201, 203, 201, 207] (List.replicate 32 0)
    (3 :: (List.replicate 32 0 ++ [200, 201, 202, 203]))
    (by decide) (by decide) (by decide) (by decide)

theorem cksumLoop_eq (file : List Nat) :
    ∀ sz off acc, cksumLoop file off sz acc = acc ++ (file.drop off).take sz := by
  intro sz
  induction sz using Nat.strong_induction_on with
  | _ sz ih =>
    intro off acc
    by_cases h : sz = 0
    · subst h
      simp [cksumLoop]
    · have hc : 0 < chunkSize := by norm_num [chunkSize]
      have hn1 : (if chunkSize < sz then chunkSize else sz) ≤ sz := by
        split <;> omega
      have hn0 : 0 < (if chunkSize < sz then chunkSize else sz) := by
        split <;> omega
      rw [cksumLoop]
      rw [dif_neg h]
      rw [ih _ (by omega)]
      rw [List.append_assoc]
      congr 1
      have hsplit : (file.drop off).take sz
          = (file.drop off).take (if chunkSize < sz then chunkSize else sz)
            ++ ((file.drop off).drop (if chunkSize < sz then chunkSize else sz)).take
                (sz - (if chunkSize < sz then chunkSize else sz)) := by
        rw [← List.take_add]
        congr 1
        omega
      rw [hsplit]
      congr 2
      rw [List.drop_drop]

/-- C4: digesting any byte sequence through the 1 GiB window loop of
fileCksum produces a digest bit-identical to hashing the same bytes in a
single pass; in particular this holds for a source of size two windows plus
one byte. -/
theorem chunked_digest_eq_one_pass (C : Prims) (file : List Nat) :
    fileCksum C file = C.sha512 file := by
  unfold fileCksum
  rw [cksumLoop_eq]
  simp

/-- C10: the chunked digest of an empty file runs zero windows and yields
the hash of the empty byte string, and signing then verifying the empty
file with a fresh keypair succeeds with result true and nil error. -/
theorem empty_file_sign_verify (C : Prims) (entropy : List Nat) :
    fileCksum C [] = C.sha512 [] ∧
      VerifyFile C (NewKeypair C entropy).Pub []
        (SignFile C (NewKeypair C entropy).Sec []) = some (true, none) := by
  constructor
  · unfold fileCksum
    rw [cksumLoop_eq]
    simp
  · unfold VerifyFile SignFile VerifyMessage edVerifyGo SignMessage NewKeypair
    simp [C.h_ed_pub_len, C.h_ed_correct]

/-- C5 counterexample: the claim says a malformed (wrong-length) public key
is surfaced as an error rather than a false result or a crash; on a
zero-length public key the embedded VerifyMessage is the modelled panic of
Ed.Verify (none), not a returned error - the error component of the Go
return value is nil on every path of the source. -/
theorem verifyMessage_wrong_length_counterexample :
    VerifyMessage P0 ⟨[]⟩ [1] ⟨[2], []⟩ = none := rfl

/-- C5 amended: verifyMessage never returns an error value: for a 32-byte
public key it returns the raw verification Boolean paired with a nil error,
so a signature mismatch is the normal false result and not an error, while
a wrong-length public key makes the verification primitive panic (modelled
none) instead of surfacing an error. -/
theorem verifyMessage_total_behavior (C : Prims) (pk : PublicKey) (ck : List Nat)
    (sig : Signature) :
    VerifyMessage C pk ck sig =
      if pk.Pk.length = 32 then some (C.edVerify pk.Pk ck sig.Sig, none) else none := by
  unfold VerifyMessage edVerifyGo
  by_cases h : pk.Pk.length = 32 <;> simp [h]

/-- C6: evaluation of the code at a failing input: decryption of a freshly
generated, password-encrypted key succeeds and restores the secret bytes,
but the returned key carries an empty cached public key even though the
generated key caches the 32-byte tail of Sk (as the source comment on
PrivateKey states); consequently SignMessage on the decrypted key computes
a different key hint than on the original key. -/
theorem readPrivateKey_pk_not_cached :
    ∃ k, ReadPrivateKey P0
        (PrivateKey.serialize P0 (NewKeypair P0 []).Sec "" [97] (List.replicate 32 0)) [97]
        = .ok k
      ∧ k.Sk = (NewKeypair P0 []).Sec.Sk
      ∧ k.pk = []
      ∧ (NewKeypair P0 []).Sec.Sk.drop 32 = (NewKeypair P0 []).Sec.pk
      ∧ (NewKeypair P0 []).Sec.pk ≠ []
      ∧ SignMessage P0 k [5] ≠ SignMessage P0 (NewKeypair P0 []).Sec [5] := by
  refine ⟨⟨(NewKeypair P0 []).Sec.Sk, []⟩, ?_, rfl, rfl, by decide, by decide, by decide⟩
  rfl

theorem mmapWindows_ne_rangeError (file : List Nat) :
    ∀ sz off acc, mmapWindows file off sz acc ≠ .error .rangeError := by
  intro sz
  induction sz using Nat.strong_induction_on with
  | _ sz ih =>
    intro off acc
    by_cases h : sz = 0
    · subst h
      simp [mmapWindows]
    · have hc : 0 < chunkSize := by norm_num [chunkSize]
      have hn0 : 0 < (if chunkSize < sz then chunkSize else sz) := by
        split <;> omega
      rw [mmapWindows, dif_neg h]
      by_cases hio : file.length < off + (if chunkSize < sz then chunkSize else sz)
      · simp [hio]
      · simp only [hio, ite_false, if_neg, not_false_iff]
        exact ih _ (by omega) _ _

theorem mmapWindows_ok (file : List Nat) :
    ∀ sz off acc, off + sz ≤ file.length →
      mmapWindows file off sz acc = .ok (acc ++ (file.drop off).take sz) := by
  intro sz
  induction sz using Nat.strong_induction_on with
  | _ sz ih =>
    intro off acc hin
    by_cases h : sz = 0
    · subst h
      simp [mmapWindows]
    · have hc : 0 < chunkSize := by norm_num [chunkSize]
      have hn1 : (if chunkSize < sz then chunkSize else sz) ≤ sz := by
        split <;> omega
      have hn0 : 0 < (if chunkSize < sz then chunkSize else sz) := by
        split <;> omega
      have hio : ¬ file.length < off + (if chunkSize < sz then chunkSize else sz) := by
        omega
      rw [mmapWindows, dif_neg h]
      simp only [hio, ite_false, if_neg, not_false_iff]
      rw [ih _ (by omega) _ _ (by omega)]
      rw [List.append_assoc]
      congr 2
      have hsplit : (file.drop off).take sz
          = (file.drop off).take (if chunkSize < sz then chunkSize else sz)
            ++ ((file.drop off).drop (if chunkSize < sz then chunkSize else sz)).take
                (sz - (if chunkSize < sz then chunkSize else sz)) := by
        rw [← List.take_add]
        congr 1
        omega
      rw [hsplit]
      congr 2
      rw [List.drop_drop]

/-- C7 counterexample: the claim says the chunked read fails with RangeError
exactly when the offset is at or beyond the size of the source; on a
100-byte source, offset 50 and requested length 10 the code returns
RangeError although the offset is inside the source, and with requested
length 0 and offset 50 it substitutes the whole size 100 (not the remaining
50 bytes) and the first window read of 100 bytes at offset 50 overruns the
source and fails. -/
theorem mmapReader_claim_counterexample :
    MmapReader (List.range 100) 50 10 = .error .rangeError
      ∧ 50 < (List.range 100).length
      ∧ MmapReader (List.range 100) 50 0 = .error .ioError := by
  refine ⟨rfl, by simp, ?_⟩
  have h1 : MmapReader (List.range 100) 50 0 = mmapWindows (List.range 100) 50 100 [] := by
    simp [MmapReader]
  rw [h1, mmapWindows]
  norm_num [chunkSize]

/-- C7 amended: a zero requested length makes the chunked read use the
whole source size counted from the start as the byte count; it fails with
RangeError exactly when the offset is at or beyond that effective count
(the requested length when nonzero, the total source size when zero), and
the zero-offset zero-length form on a non-empty source reads the whole
source. -/
theorem mmapReader_effective_range (file : List Nat) (off sz : Nat) :
    (MmapReader file off sz = .error .rangeError
        ↔ (if sz = 0 then file.length else sz) ≤ off)
      ∧ (sz = 0 → off = 0 → file ≠ [] → MmapReader file 0 0 = .ok file) := by
  constructor
  · by_cases hle : (if sz = 0 then file.length else sz) ≤ off
    · simp only [MmapReader, if_pos hle]
      simp [hle]
    · simp only [MmapReader, if_neg hle]
      constructor
      · intro hres
        exact absurd hres (mmapWindows_ne_rangeError file _ _ _)
      · intro hcon
        exact absurd hcon hle
  · intro _ _ hne
    have hlen : 0 < file.length := List.length_pos.mpr hne
    show (if file.length ≤ 0 then (.error .rangeError : Except GoErr (List Nat))
        else mmapWindows file 0 file.length []) = .ok file
    rw [if_neg (by omega)]
    rw [mmapWindows_ok file file.length 0 [] (by omega)]
    simp

/-- Witness for C7 amended at a concrete two-byte source: the zero-length
zero-offset read returns the whole source. -/
theorem mmapReader_effective_range_witness :
    MmapReader [5, 6] 0 0 = .ok [5, 6] :=
  (mmapReader_effective_range [5, 6] 0 0).2 rfl rfl (by decide)

/-- C8 counterexample: a serialized signature record whose mandatory
signature field is missing (the empty string, as yaml.Unmarshal leaves it)
deserializes successfully to an empty signature instead of failing with
FormatError. -/
theorem makeSignature_missing_field_counterexample :
    MakeSignature P0 ⟨"some comment", [], []⟩ = .ok ⟨[], []⟩ := rfl

/-- C8 amended: deserialization fails with FormatError when the base64 of
the signature field or of the key-hint field is invalid; an absent key-hint
or comment is not an error, and an absent signature field is not detected
either - the empty field decodes to an empty signature; deserializing a
record produced by serialization returns the original signature bytes. -/
theorem makeSignature_codec (C : Prims) (ss : signature) (comment : String)
    (sig : Signature) :
    (C.b64dec ss.Signature = none → MakeSignature C ss = .error .formatError)
      ∧ (∀ s, C.b64dec ss.Signature = some s → C.b64dec ss.Pkhash = none →
          MakeSignature C ss = .error .formatError)
      ∧ MakeSignature C (Signature.Serialize C sig comment) = .ok sig
      ∧ MakeSignature C ⟨comment, [], []⟩ = .ok ⟨[], []⟩ := by
  refine ⟨?_, ?_, ?_, ?_⟩
  · intro hn
    unfold MakeSignature
    rw [hn]
  · intro s hs hp
    unfold MakeSignature
    rw [hs, hp]
  · unfold MakeSignature Signature.Serialize
    simp only [C.h_b64]
  · unfold MakeSignature
    simp only [C.h_b64_nil]

/-- Witness for C8 amended: an invalid signature field is rejected with
FormatError, and a serialized concrete signature round-trips. -/
theorem makeSignature_codec_witness :
    MakeSignature P0 ⟨"", [7], [7]⟩ = .error .formatError
      ∧ MakeSignature P0 (Signature.Serialize P0 ⟨[1], [2]⟩ "") = .ok ⟨[1], [2]⟩ :=
  ⟨(makeSignature_codec P0 ⟨"", [7], [7]⟩ "" ⟨[1], [2]⟩).1 (by decide),
   (makeSignature_codec P0 ⟨"", [7], [7]⟩ "" ⟨[1], [2]⟩).2.2.1⟩

theorem tmp_ne (fn : String) : fn ≠ fn ++ ".tmp" := by
  intro h
  have hlen := congrArg String.length h
  rw [String.length_append] at hlen
  have h4 : (".tmp" : String).length = 4 := rfl
  omega

theorem fsGet_fsDel_same (fs : FS) (p : String) : fsGet (fsDel fs p) p = none := by
  induction fs with
  | nil => rfl
  | cons e t ih =>
    by_cases hp : e.1 = p
    · simpa [fsDel, hp] using ih
    · simp [fsDel, hp, fsGet, ih]

theorem fsGet_fsDel_other (fs : FS) (p q : String) (h : q ≠ p) :
    fsGet (fsDel fs p) q = fsGet fs q := by
  have hpq : ¬ (p = q) := fun hx => h hx.symm
  induction fs with
  | nil => rfl
  | cons e t ih =>
    by_cases hp : e.1 = p
    · have hq : ¬ (e.1 = q) := by
        rw [hp]
        exact hpq
      simp [fsDel, hp, fsGet, hq, ih, hpq]
    · by_cases hq : e.1 = q
      · simp [fsDel, hp, fsGet, hq, h]
      · simp [fsDel, hp, fsGet, hq, ih, h]

theorem fsGet_fsSet_same (fs : FS) (p : String) (b : List Nat) :
    fsGet (fsSet fs p b) p = some b := by
  simp [fsSet, fsGet]

theorem fsGet_fsSet_other (fs : FS) (p q : String) (b : List Nat) (h : q ≠ p) :
    fsGet (fsSet fs p b) q = fsGet fs q := by
  have hpq : p ≠ q := fun hqq => h hqq.symm
  simp [fsSet, fsGet, hpq, fsGet_fsDel_other fs p q h]

/-- C9 counterexample: with the target holding old content and the rename
step failing, writeFile reports success (nil error) while the target still
holds the old content: the rename failure is silently swallowed by the
source (the os.Rename result is discarded), not surfaced as an error. -/
theorem writeFile_rename_counterexample :
    (writeFile [("a", [1])] "a" [2] false false true).1 = .ok ()
      ∧ fsGet (writeFile [("a", [1])] "a" [2] false false true).2 "a" = some [1] := by
  constructor
  · rfl
  · rfl

/-- C9 amended: the atomic write removes any stale temporary sibling before
writing; a failure while creating or writing the temporary file surfaces an
IOError and leaves the target path prior content (or absence) unchanged; a
failure during the rename step also leaves the target unchanged but is
silently ignored - the operation reports success regardless of the rename
outcome; on full success the target holds the new content and the
temporary file is gone. -/
theorem writeFile_atomic (fs : FS) (fn : String) (b : List Nat) :
    ((writeFile fs fn b true false false).1 = .error .ioError
      ∧ fsGet (writeFile fs fn b true false false).2 (fn ++ ".tmp") = none
      ∧ fsGet (writeFile fs fn b true false false).2 fn = fsGet fs fn)
    ∧ ((writeFile fs fn b false true false).1 = .error .ioError
      ∧ fsGet (writeFile fs fn b false true false).2 fn = fsGet fs fn)
    ∧ ((writeFile fs fn b false false true).1 = .ok ()
      ∧ fsGet (writeFile fs fn b false false true).2 fn = fsGet fs fn)
    ∧ ((writeFile fs fn b false false false).1 = .ok ()
      ∧ fsGet (writeFile fs fn b false false false).2 fn = some b
      ∧ fsGet (writeFile fs fn b false false false).2 (fn ++ ".tmp") = none) := by
  have hne : fn ≠ fn ++ ".tmp" := tmp_ne fn
  have hne2 : fn ++ ".tmp" ≠ fn := fun h => hne h.symm
  refine ⟨⟨rfl, ?_, ?_⟩, ⟨rfl, ?_⟩, ⟨rfl, ?_⟩, ⟨rfl, ?_, ?_⟩⟩
  · show fsGet (fsDel fs (fn ++ ".tmp")) (fn ++ ".tmp") = none
    exact fsGet_fsDel_same _ _
  · show fsGet (fsDel fs (fn ++ ".tmp")) fn = fsGet fs fn
    exact fsGet_fsDel_other _ _ _ hne
  · show fsGet (fsSet (fsDel fs (fn ++ ".tmp")) (fn ++ ".tmp") []) fn = fsGet fs fn
    rw [fsGet_fsSet_other _ _ _ _ hne, fsGet_fsDel_other _ _ _ hne]
  · show fsGet (fsSet (fsSet (fsDel fs (fn ++ ".tmp")) (fn ++ ".tmp") [])
        (fn ++ ".tmp") b) fn = fsGet fs fn
    rw [fsGet_fsSet_other _ _ _ _ hne, fsGet_fsSet_other _ _ _ _ hne,
      fsGet_fsDel_other _ _ _ hne]
  · show fsGet (fsSet (fsDel (fsSet (fsSet (fsDel fs (fn ++ ".tmp")) (fn ++ ".tmp") [])
        (fn ++ ".tmp") b) (fn ++ ".tmp")) fn b) fn = some b
    exact fsGet_fsSet_same _ _ _
  · show fsGet (fsSet (fsDel (fsSet (fsSet (fsDel fs (fn ++ ".tmp")) (fn ++ ".tmp") [])
        (fn ++ ".tmp") b) (fn ++ ".tmp")) fn b) (fn ++ ".tmp") = none
    rw [fsGet_fsSet_other _ _ _ _ hne2]
    exact fsGet_fsDel_same _ _

end Sign
